import Mathlib

/-!
Shallow embedding of the dataset layer of the causal-iq repository
(`src/fileio/numpy.py`, class `NumPy`) together with proofs about the
claims of its specification.

Modelling conventions:
* a NumPy 2-D array is a rectangular `List (List Nat)` of rows; cell values
  are the `uint8` integer codes of categorical values.  Continuous (`float32`)
  cells are modelled abstractly by the same `Nat` carrier: no verified claim
  performs arithmetic on continuous cell values, the operations only select
  and reorder them;
* Python dictionaries are association lists in insertion order, with
  overwriting insertion (`dictInsert`);
* a Python method that can raise becomes a function into `Except PyError`;
  `isinstance` argument-type checks of the source are static in the typed
  embedding and are noted by comments at their source positions;
* printing and `Timing` calls of the source are side-effect free for every
  returned value and are dropped.
-/

namespace NumPyModel

/-- Python exceptions raised by the embedded code. -/
inductive PyError where
  | typeError (msg : String)
  | valueError (msg : String)
deriving Repr, DecidableEq

/-- Modelled from the spec: `DatasetType` lives in `fileio/common.py`, which is
not among the provided sources.  The spec and the source use it as the closed
kind tag of a dataset: categorical, continuous or mixed. -/
inductive DatasetType where
  | categorical
  | continuous
  | mixed
deriving Repr, DecidableEq

/-- Python `dict[k]` with a default, on an association list. -/
def lookupD {α β : Type} [BEq α] (l : List (α × β)) (k : α) (d : β) : β :=
  (List.lookup k l).getD d

/-- Overwriting insertion, the semantics of `d[k] = v` on a Python dict:
an existing key keeps its position and gets the new value, a new key is
appended. -/
def dictInsert {β : Type} (d : List (String × β)) (k : String) (v : β) :
    List (String × β) :=
  if d.any (fun p => p.1 == k) then
    d.map (fun p => if p.1 == k then (k, v) else p)
  else d ++ [(k, v)]

/-- Build a Python dict from a list of key-value pairs, left to right. -/
def buildDict {β : Type} (ps : List (String × β)) : List (String × β) :=
  ps.foldl (fun d p => dictInsert d p.1 p.2) []

/-- Lexicographic comparison of char lists by code point, the string order
used by Python `sorted`. -/
def charListLe : List Char → List Char → Bool
  | [], _ => true
  | _ :: _, [] => false
  | a :: as, b :: bs =>
    if a.val < b.val then true else if b.val < a.val then false else charListLe as bs

/-- Python string comparison: code-point lexicographic order. -/
def strLe (a b : String) : Bool := charListLe a.data b.data

/-- Rebuild a dict with its keys in sorted order: the embedding of the
source idiom `counts = dict with v: counts[v] for v in sorted(counts)`.
The dict being rebuilt has distinct keys, so every sort by key produces the
same list; insertion sort is used because it evaluates inside the kernel. -/
def sortByKey {β : Type} (d : List (String × β)) : List (String × β) :=
  List.insertionSort (fun a b => strLe a.1 b.1 = true) d

/-- Column `j` of a row-major matrix: `rows[:, j]`. -/
def columnOf (rows : List (List Nat)) (j : Nat) : List Nat :=
  rows.map (fun r => r.getD j 0)

/-- Largest element of a list of naturals (0 on the empty list). -/
def natMax (l : List Nat) : Nat := l.foldr max 0

/-- numpy `bincount`: entry `v` is the number of occurrences of `v`, for
`v` up to the largest element of the input. -/
def bincount (l : List Nat) : List Nat :=
  match l with
  | [] => []
  | _ :: _ => (List.range (natMax l + 1)).map (fun v => l.count v)

/-- Lexicographic comparison of code rows, the row order used by
numpy `unique(axis=0)`. -/
def lexLe : List Nat → List Nat → Bool
  | [], _ => true
  | _ :: _, [] => false
  | a :: as, b :: bs => if a < b then true else if b < a then false else lexLe as bs

/-- numpy `unique(axis=0)`: the distinct rows of a matrix in sorted order.
The rows being sorted are distinct, so every sort under the total order
`lexLe` produces the same list; insertion sort is used because it evaluates
inside the kernel. -/
def npUnique (rows : List (List Nat)) : List (List Nat) :=
  List.insertionSort (fun a b => lexLe a b = true) rows.dedup

/-- Apply a row permutation given as a list of indices: `rows[order]`. -/
def applyPerm (order : List Nat) (rows : List (List Nat)) : List (List Nat) :=
  order.map (fun i => rows.getD i [])

/-- Models `numpy.random.default_rng(seed).permutation(N)`: the library
produces a deterministic permutation of `0..N-1` that depends only on the
seed; the repository never depends on which permutation it is, so it is
modelled as a seed-dependent rotation of `range N`. -/
def npPermutation (seed N : Nat) : List Nat := (List.range N).rotate seed

/-- Distinct values of a list in order of first appearance, skipping values
already seen. -/
def firstAppearanceAux (seen : List String) : List String → List String
  | [] => []
  | x :: xs =>
    if x ∈ seen then firstAppearanceAux seen xs
    else x :: firstAppearanceAux (x :: seen) xs

/-- Distinct values of a list in order of first appearance: the value
enumeration order of `pandas.factorize` (with its default `sort=False`). -/
def firstAppearance (l : List String) : List String := firstAppearanceAux [] l

/-- maximum number of different values in category (`numpy.py` line 14). -/
def MAX_CATEGORY : Nat := 100

/-- State of a `NumPy` object (`numpy.py` lines 46-83): one field per
instance variable. -/
structure NumPyState where
  data : List (List Nat)
  sample : List (List Nat)
  nodes : List String
  categories : List (List String)
  order : List Nat
  ext_to_orig : List (String × String)
  orig_to_ext : List (String × String)
  N : Nat
  node_types : List (String × String)
  dstype : DatasetType
  node_values : List (String × List (String × Nat))
deriving Repr, DecidableEq

/-- Values and counts of one categorical column of the sample
(`numpy.py` lines 230-232): label each bincount entry with its category,
then rebuild the dict with keys sorted. -/
def nodeValueCounts (cats : List String) (col : List Nat) : List (String × Nat) :=
  sortByKey (buildDict ((bincount col).enum.map (fun p => (cats.getD p.1 "", p.2))))

/-- `NumPy.set_N` (`numpy.py` lines 195-239).  The `isinstance` type checks
of lines 207-210 are static here; a negative `N` or `seed` is rejected by
the source value check, so the `Nat` arguments lose no success case. -/
def set_N (s : NumPyState) (N : Nat) (seed : Option Nat) :
    Except PyError NumPyState :=
  if N < 1 ∨ s.data.length < N ∨ 100 < seed.getD 0 then
    .error (.valueError "Pandas.set_N() bad arg value")
  else
    -- sample is data restricted to the first N rows (line 221-222)
    let sample0 := s.data.take N
    -- node values and counts for categorical variables (lines 227-233),
    -- computed before the optional row reordering
    let width := (sample0.headD []).length
    let node_values :=
      if s.dstype = DatasetType.categorical then
        (List.range width).map (fun j =>
          (s.nodes.getD j "", nodeValueCounts (s.categories.getD j []) (columnOf sample0 j)))
      else []
    -- randomise the row order if required (lines 237-239)
    let sample :=
      match seed with
      | some sd => if sd ≠ 0 then applyPerm (npPermutation sd N) sample0 else sample0
      | none => sample0
    .ok { s with N := N, sample := sample, node_values := node_values }

/-- `NumPy.__init__` (`numpy.py` lines 46-83).  `col_values` entries are
`some` categories tuple for categorical data and `none` for continuous, the
faithful image of the dict the source receives; dtype checks on the cells
are static in this embedding. -/
def mkNumPy (data : List (List Nat)) (dstype : DatasetType)
    (col_values : List (String × Option (List String))) :
    Except PyError NumPyState :=
  if (dstype = DatasetType.categorical ∧ ¬ ∀ p ∈ col_values, (p.2).isSome = true)
      ∨ (dstype = DatasetType.continuous ∧ ¬ ∀ p ∈ col_values, p.2 = none) then
    .error (.typeError "NumPy() bad arg type")
  else if data.length < 2 ∨ (data.headD []).length < 2
      ∨ (data.headD []).length ≠ col_values.length then
    .error (.valueError "NumPy bad arg values")
  else
    let nodes := col_values.map Prod.fst
    let base : NumPyState :=
      { data := data
        sample := []
        nodes := nodes
        categories :=
          if dstype = DatasetType.categorical then
            col_values.map (fun p => p.2.getD [])
          else []
        order := List.range nodes.length
        ext_to_orig := nodes.map (fun n => (n, n))
        orig_to_ext := nodes.map (fun n => (n, n))
        N := 0
        node_types := nodes.map (fun n =>
          (n, if dstype = DatasetType.categorical then "category" else "float32"))
        dstype := dstype
        node_values := [] }
    -- set N, sample and categorical node_values for the full data (line 83)
    set_N base data.length none

/-- Modelled from the spec: `Data._generate_random_names` lives in the base
class `fileio/data.py`, which is not among the provided sources.  Per the
spec it re-draws the external node names used by the learning algorithm
(for name-sensitivity studies), deterministically from the seed, and a
`none` seed reverts to the original names.  Modelled as a seed-tagged
renaming of each original name. -/
def generateRandomNames (nodes : List String) (seed : Option Nat) :
    List (String × String) :=
  match seed with
  | none => nodes.map (fun n => (n, n))
  | some k => nodes.map (fun n => (n, "V" ++ toString k ++ "X" ++ n))

/-- `NumPy.randomise_names` (`numpy.py` lines 241-265), over the modelled
name generator.  The `isinstance` type check of lines 252-253 is static. -/
def randomise_names (s : NumPyState) (seed : Option Nat) :
    Except PyError NumPyState :=
  let old_orig_to_ext := s.orig_to_ext
  let orig_to_ext := generateRandomNames s.nodes seed
  let ext_to_orig := orig_to_ext.map (fun p => (p.2, p.1))
  -- map from previous external names to new external names (lines 262-263)
  let nameMap := orig_to_ext.map (fun p => (lookupD old_orig_to_ext p.1 "", p.2))
  .ok { s with
        orig_to_ext := orig_to_ext
        ext_to_orig := ext_to_orig
        node_values := s.node_values.map (fun p => (lookupD nameMap p.1 "", p.2))
        node_types := s.node_types.map (fun p => (lookupD nameMap p.1 "", p.2)) }

/-- Result of a marginals query: the tuple returned at `numpy.py` line 372. -/
structure MarginalsResult where
  counts : List (List Nat)
  maxcol : Nat
  rowval : Option (List String)
  colval : Option (List (List (String × String)))
deriving Repr, DecidableEq

/-- Requested nodes of a marginals query (`numpy.py` line 291). -/
def reqNodes (node : String) (parents : List (String × List String)) :
    List String :=
  match List.lookup node parents with
  | some ps => node :: ps
  | none => [node]

/-- Column indexes of the requested nodes (`numpy.py` lines 313-314). -/
def jReqd (s : NumPyState) (ns : List String) : List Nat :=
  ns.map (fun n => s.nodes.indexOf (lookupD s.ext_to_orig n ""))

/-- `self.sample[:, j_reqd]`: the sample restricted to the requested
columns, one reduced row per sample row. -/
def projectedRows (sample : List (List Nat)) (js : List Nat) : List (List Nat) :=
  sample.map (fun row => js.map (fun j => row.getD j 0))

/-- Count looked up for one cell of the crosstab matrix.  The loop of
`numpy.py` lines 345-348 writes `_counts[idx]` into the cell addressed by
`combos[idx]`; rows of `combos` come from `np.unique` and are distinct, so
each cell is written at most once and holds the count of its key if that
key is a combo, otherwise the initial zero. -/
def cellVal (combos : List (List Nat)) (cnts : List Nat) (key : List Nat) : Nat :=
  match (combos.zip cnts).find? (fun x => x.1 == key) with
  | some x => x.2
  | none => 0

/-- The crosstab-style matrix of `numpy.py` lines 344-348: child values
`0..cLen-1` as rows, observed parent combinations as columns. -/
def countsMatrix (combos : List (List Nat)) (cnts : List Nat) (cLen : Nat)
    (pCombos : List (List Nat)) : List (List Nat) :=
  (List.range cLen).map (fun i => pCombos.map (fun pc => cellVal combos cnts (i :: pc)))

/-- Sum of all entries of a counts matrix. -/
def matrixSum (m : List (List Nat)) : Nat := (m.map List.sum).sum

/-- `NumPy.marginals` (`numpy.py` lines 267-372).  The `isinstance` type
checks of lines 284-287 are static here; the guard below is the negation of
the value check of lines 292-294. -/
def marginals (s : NumPyState) (node : String)
    (parents : List (String × List String)) (values_reqd : Bool) :
    Except PyError MarginalsResult :=
  let nodes_req := reqNodes node parents
  let keys := s.node_values.map Prod.fst
  if (∀ n ∈ nodes_req, n ∈ keys) ∧ nodes_req.Nodup then
    if nodes_req.length = 1 then
      -- marginals for a single variable, from node_values (lines 300-307)
      let nv := lookupD s.node_values node []
      let counts := nv.map (fun p => [p.2])
      let rowval := if values_reqd then some (nv.map Prod.fst) else none
      .ok ⟨counts, 1, rowval, none⟩
    else
      let j_reqd := jReqd s nodes_req
      -- num_cats (line 315) is computed but never used by the source
      let _num_cats := nodes_req.map (fun n => (lookupD s.node_values n []).length)
      let projected := projectedRows s.sample j_reqd
      -- count the different combinations of values (lines 329-333)
      let combos := npUnique projected
      let cnts := combos.map (fun c => projected.count c)
      -- unique values of child and parent combos (lines 337-340)
      let cLen := (lookupD s.node_values node []).length
      let pCombos := npUnique (combos.map List.tail)
      -- initialise and populate the crosstab-style matrix (lines 344-348)
      let counts := countsMatrix combos cnts cLen pCombos
      -- maxcol is the product of the numbers of states of the parents
      -- in node_values (lines 353-354)
      let maxcol := ((List.lookup node parents).getD []).foldl
        (fun m p => m * (lookupD s.node_values p []).length) 1
      -- child value per row and parental combination per column (lines 359-364)
      let rowval := if values_reqd then some (s.categories.getD (j_reqd.headD 0) []) else none
      let colval :=
        if values_reqd then
          some (pCombos.map (fun c =>
            (List.range (j_reqd.length - 1)).map (fun k =>
              let j := j_reqd.getD (k + 1) 0
              (lookupD s.orig_to_ext (s.nodes.getD j "") "",
               (s.categories.getD j []).getD (c.getD k 0) ""))))
        else none
      .ok ⟨counts, maxcol, rowval, colval⟩
  else .error (.valueError "NumPy.marginals() bad arg value")

/-- `NumPy.marginals_safe` (`numpy.py` lines 374-478): a verbatim copy of
`marginals` in the source, except that it does not compute the unused
`num_cats` local. -/
def marginals_safe (s : NumPyState) (node : String)
    (parents : List (String × List String)) (values_reqd : Bool) :
    Except PyError MarginalsResult :=
  let nodes_req := reqNodes node parents
  let keys := s.node_values.map Prod.fst
  if (∀ n ∈ nodes_req, n ∈ keys) ∧ nodes_req.Nodup then
    if nodes_req.length = 1 then
      let nv := lookupD s.node_values node []
      let counts := nv.map (fun p => [p.2])
      let rowval := if values_reqd then some (nv.map Prod.fst) else none
      .ok ⟨counts, 1, rowval, none⟩
    else
      let j_reqd := jReqd s nodes_req
      let projected := projectedRows s.sample j_reqd
      let combos := npUnique projected
      let cnts := combos.map (fun c => projected.count c)
      let cLen := (lookupD s.node_values node []).length
      let pCombos := npUnique (combos.map List.tail)
      let counts := countsMatrix combos cnts cLen pCombos
      let maxcol := ((List.lookup node parents).getD []).foldl
        (fun m p => m * (lookupD s.node_values p []).length) 1
      let rowval := if values_reqd then some (s.categories.getD (j_reqd.headD 0) []) else none
      let colval :=
        if values_reqd then
          some (pCombos.map (fun c =>
            (List.range (j_reqd.length - 1)).map (fun k =>
              let j := j_reqd.getD (k + 1) 0
              (lookupD s.orig_to_ext (s.nodes.getD j "") "",
               (s.categories.getD j []).getD (c.getD k 0) ""))))
        else none
      .ok ⟨counts, maxcol, rowval, colval⟩
  else .error (.valueError "NumPy.marginals() bad arg value")

/-- `NumPy.values` (`numpy.py` lines 480-500).  The source type check also
rejects an empty tuple of nodes; the remaining `isinstance` checks are
static. -/
def values (s : NumPyState) (nodes : List String) :
    Except PyError (List (List Nat)) :=
  if nodes.length = 0 then .error (.typeError "Pandas.values() bad arg type")
  else
    let numeric := (s.node_types.filter (fun p => p.2 ≠ "category")).map Prod.fst
    if ¬ nodes.Nodup ∨ ∃ n ∈ nodes, n ∉ numeric then
      .error (.valueError "Pandas.values() bad arg values")
    else
      .ok (s.data.map (fun row => nodes.map (fun n => row.getD (s.nodes.indexOf n) 0)))

/-- Models `pandas.factorize` on a categorical column (default `sort=False`):
codes are assigned in order of first appearance, and the recovered value
tuple `uniques.categories[uniques.codes].unique()` of `numpy.py` lines
180-181 lists the distinct values in order of first appearance. -/
def factorize (col : List String) : List Nat × List String :=
  let uniques := firstAppearance col
  (col.map (fun v => uniques.indexOf v), uniques)

/-- Number of rows of a dataframe given column-major: `len(df)`. -/
def dfLen (df : List (String × List String)) : Nat :=
  ((df.headD ("", [])).2).length

/-- `NumPy.from_df` (`numpy.py` lines 136-193) for a categorical dataframe,
given column-major as name-values pairs.  All columns of the modelled
dataframe carry dtype `category`, so the dtype-set check of lines 159-162
fails exactly when the dataframe has no columns. -/
def fromDfCat (df : List (String × List String)) : Except PyError NumPyState :=
  if df.length = 1 ∨ dfLen df = 1 ∨ df.length = 0 then
    .error (.valueError "NumPy.from_df() bad arg value")
  else if df.any (fun c => MAX_CATEGORY < (firstAppearance c.2).length) then
    .error (.valueError "data.read() too many categories")
  else
    let codes := df.map (fun c => (factorize c.2).1)
    -- df2.to_numpy: one row per dataframe row (line 191)
    let data := (List.range (dfLen df)).map (fun i => codes.map (fun col => col.getD i 0))
    mkNumPy data DatasetType.categorical
      (df.map (fun c => (c.1, some (firstAppearance c.2))))

/-! ### Generic list lemmas used by the verification -/

/-- Summing, over a duplicate-free cover of the elements of `rows`, the
number of occurrences of each cover element in `rows` recovers the length
of `rows`. -/
theorem sum_map_count_of_cover {α : Type} [BEq α] [LawfulBEq α]
    (rows : List α) : ∀ (u : List α), u.Nodup → (∀ r ∈ rows, r ∈ u) →
    (u.map (fun c => rows.count c)).sum = rows.length := by
  induction rows with
  | nil => intro u _ _; simp [List.count_nil]
  | cons r rows ih =>
    intro u hu hsub
    have hr : r ∈ u := hsub r (by simp)
    have hcount : ∀ c, List.count c (r :: rows) =
        List.count c rows + if (r == c) = true then 1 else 0 := by
      intro c; exact List.count_cons c r rows
    have hmap : u.map (fun c => List.count c (r :: rows)) =
        u.map (fun c => List.count c rows + if (r == c) = true then 1 else 0) :=
      List.map_congr_left (fun c _ => hcount c)
    rw [hmap, List.sum_map_add]
    have hone : (u.map (fun c => if (r == c) = true then 1 else 0)).sum = 1 := by
      clear hmap hsub
      induction u with
      | nil => simp at hr
      | cons a u ihu =>
        rcases List.mem_cons.mp hr with h | h
        · subst h
          have hnot : r ∉ u := (List.nodup_cons.mp hu).1
          have : (u.map (fun c => if (r == c) = true then 1 else 0)).sum = 0 := by
            apply List.sum_eq_zero
            intro x hx
            rcases List.mem_map.mp hx with ⟨c, hc, hx'⟩
            have : ¬ (r == c) = true := by
              intro hb
              exact hnot (by rwa [eq_of_beq hb])
            simp [this] at hx'
            omega
          simp [this]
        · have hnot : a ∉ u := (List.nodup_cons.mp hu).1
          have hra : ¬ (r == a) = true := by
            intro hb
            rw [eq_of_beq hb] at h
            exact hnot h
          have := ihu (List.nodup_cons.mp hu).2 h
          simp [hra, this]
    rw [hone, ih u hu (fun x hx => hsub x (by simp [hx]))]
    simp [List.length_cons]

/-- Replacing the value of `g` by `n` at a single element of a
duplicate-free list, where `g` vanishes, adds `n` to the mapped sum. -/
theorem sum_map_if_single {α : Type} [DecidableEq α]
    (keys : List α) (c : α) (n : Nat) (g : α → Nat)
    (hnd : keys.Nodup) (hc : c ∈ keys) (hg : g c = 0) :
    (keys.map (fun k => if c = k then n else g k)).sum = n + (keys.map g).sum := by
  induction keys with
  | nil => simp at hc
  | cons a keys ih =>
    rcases List.mem_cons.mp hc with h | h
    · subst h
      have hnot : c ∉ keys := (List.nodup_cons.mp hnd).1
      have : keys.map (fun k => if c = k then n else g k) = keys.map g := by
        apply List.map_congr_left
        intro k hk
        have : c ≠ k := fun he => hnot (he ▸ hk)
        simp [this]
      simp [this, hg, Nat.add_comm]
    · have hca : ¬ c = a := by
        intro he
        exact (List.nodup_cons.mp hnd).1 (he ▸ h)
      have := ih (List.nodup_cons.mp hnd).2 h
      simp only [List.map_cons, List.sum_cons, if_neg hca, this]
      omega

/-! ### Lemmas about the numpy helpers -/

theorem mem_npUnique {c : List Nat} {rows : List (List Nat)} :
    c ∈ npUnique rows ↔ c ∈ rows := by
  unfold npUnique
  rw [(List.perm_insertionSort _ rows.dedup).mem_iff, List.mem_dedup]

theorem nodup_npUnique (rows : List (List Nat)) : (npUnique rows).Nodup := by
  unfold npUnique
  exact ((List.perm_insertionSort _ rows.dedup).nodup_iff).mpr (List.nodup_dedup rows)

theorem sum_count_npUnique (rows : List (List Nat)) :
    ((npUnique rows).map (fun c => rows.count c)).sum = rows.length :=
  sum_map_count_of_cover rows (npUnique rows) (nodup_npUnique rows)
    (fun _ hr => mem_npUnique.mpr hr)

theorem le_natMax {x : Nat} {l : List Nat} (h : x ∈ l) : x ≤ natMax l := by
  induction l with
  | nil => simp at h
  | cons a t ih =>
    rcases List.mem_cons.mp h with h | h
    · subst h; exact Nat.le_max_left _ _
    · exact Nat.le_trans (ih h) (Nat.le_max_right _ _)

theorem bincount_length {l : List Nat} (h : l ≠ []) :
    (bincount l).length = natMax l + 1 := by
  match l, h with
  | a :: t, _ => simp [bincount]

theorem mem_lt_bincount_length {x : Nat} {l : List Nat} (h : x ∈ l) :
    x < (bincount l).length := by
  have hne : l ≠ [] := by rintro rfl; simp at h
  rw [bincount_length hne]
  exact Nat.lt_succ_of_le (le_natMax h)

theorem bincount_sum {l : List Nat} (h : l ≠ []) :
    (bincount l).sum = l.length := by
  have hb : bincount l = (List.range (natMax l + 1)).map (fun v => l.count v) := by
    match l, h with
    | a :: t, _ => simp [bincount]
  rw [hb]
  have : (List.range (natMax l + 1)).map (fun v => l.count v) =
      (List.range (natMax l + 1)).map (fun v => List.count v l) := rfl
  rw [this]
  exact sum_map_count_of_cover l _ (List.nodup_range _)
    (fun r hr => List.mem_range.mpr (Nat.lt_succ_of_le (le_natMax hr)))

/-! ### The crosstab matrix sums to the number of sample rows -/

/-- Key set addressed by the crosstab matrix: child value consed onto each
parent combination. -/
def crossKeys (cLen : Nat) (pCombos : List (List Nat)) : List (List Nat) :=
  (List.range cLen).flatMap (fun i => pCombos.map (fun pc => i :: pc))

theorem cellVal_nil (cnts : List Nat) (key : List Nat) :
    cellVal [] cnts key = 0 := by
  simp [cellVal]

theorem cellVal_cons (c : List Nat) (cs : List (List Nat)) (n : Nat)
    (ns : List Nat) (key : List Nat) :
    cellVal (c :: cs) (n :: ns) key = if c = key then n else cellVal cs ns key := by
  unfold cellVal
  rw [List.zip_cons_cons, List.find?_cons]
  by_cases h : c = key
  · subst h; simp
  · have : ((c, n).1 == key) = false := by
      simp [h]
    simp [this, h]

theorem cellVal_eq_zero_of_not_mem (combos : List (List Nat)) (cnts : List Nat)
    (key : List Nat) (h : key ∉ combos) : cellVal combos cnts key = 0 := by
  unfold cellVal
  have : List.find? (fun x => x.1 == key) (combos.zip cnts) = none := by
    rw [List.find?_eq_none]
    intro x hx hbeq
    obtain ⟨a, b⟩ := x
    have hx1 : a ∈ combos := (List.of_mem_zip hx).1
    have hak : a = key := by simpa using hbeq
    exact h (hak ▸ hx1)
  rw [this]

theorem sum_map_cellVal (keys : List (List Nat)) (hk : keys.Nodup) :
    ∀ (combos : List (List Nat)) (cnts : List Nat), combos.Nodup →
    cnts.length = combos.length → (∀ c ∈ combos, c ∈ keys) →
    (keys.map (cellVal combos cnts)).sum = cnts.sum := by
  intro combos
  induction combos with
  | nil =>
    intro cnts _ hlen _
    have : cnts = [] := List.length_eq_zero.mp hlen
    subst this
    rw [List.sum_eq_zero]
    · rfl
    · intro x hx
      rcases List.mem_map.mp hx with ⟨k, _, hk⟩
      rw [← hk, cellVal_nil]
  | cons c cs ih =>
    intro cnts hnd hlen hsub
    match cnts, hlen with
    | n :: ns, hlen =>
      have hcs : cs.Nodup := (List.nodup_cons.mp hnd).2
      have hcnotin : c ∉ cs := (List.nodup_cons.mp hnd).1
      have hmap : keys.map (cellVal (c :: cs) (n :: ns)) =
          keys.map (fun k => if c = k then n else cellVal cs ns k) :=
        List.map_congr_left (fun k _ => cellVal_cons c cs n ns k)
      rw [hmap]
      have hzero : cellVal cs ns c = 0 :=
        cellVal_eq_zero_of_not_mem cs ns c hcnotin
      rw [sum_map_if_single keys c n (cellVal cs ns) hk (hsub c (by simp)) hzero]
      have := ih ns hcs (by simpa using hlen) (fun x hx => hsub x (by simp [hx]))
      rw [this]
      simp

theorem nodup_crossKeys (cLen : Nat) (pCombos : List (List Nat))
    (hp : pCombos.Nodup) : (crossKeys cLen pCombos).Nodup := by
  unfold crossKeys
  rw [List.nodup_flatMap]
  constructor
  · intro i _
    exact hp.map_on (fun x _ y _ hxy => by
      injection hxy)
  · have := List.pairwise_lt_range cLen
    apply this.imp
    intro i j hij
    intro x hx hy
    rcases List.mem_map.mp hx with ⟨a, _, ha⟩
    rcases List.mem_map.mp hy with ⟨b, _, hb⟩
    rw [← ha] at hb
    injection hb with h1 _
    omega

theorem mem_crossKeys {cLen : Nat} {pCombos : List (List Nat)}
    {i : Nat} {pc : List Nat} (hi : i < cLen) (hpc : pc ∈ pCombos) :
    i :: pc ∈ crossKeys cLen pCombos := by
  unfold crossKeys
  rw [List.mem_flatMap]
  exact ⟨i, List.mem_range.mpr hi, List.mem_map.mpr ⟨pc, hpc, rfl⟩⟩

theorem sum_map_flatMap {α β : Type} (F : β → Nat) (f : α → List β) :
    ∀ (l : List α), (((l.flatMap f).map F).sum) =
      (l.map (fun a => ((f a).map F).sum)).sum := by
  intro l
  induction l with
  | nil => simp
  | cons a t ih => simp [List.flatMap_cons, List.map_append, List.sum_append, ih]

theorem matrixSum_countsMatrix (combos : List (List Nat)) (cnts : List Nat)
    (cLen : Nat) (pCombos : List (List Nat)) :
    matrixSum (countsMatrix combos cnts cLen pCombos) =
      ((crossKeys cLen pCombos).map (cellVal combos cnts)).sum := by
  unfold matrixSum countsMatrix crossKeys
  rw [sum_map_flatMap]
  rw [List.map_map]
  congr 1
  apply List.map_congr_left
  intro i _
  rw [List.map_map]
  rfl

/-- Every entry of the crosstab matrix of `marginals` accounted for: if the
combo rows are distinct, coverable by the key grid, and carry their
occurrence counts, the matrix total is the total of the counts. -/
theorem matrixSum_eq_sum_cnts (combos : List (List Nat)) (cnts : List Nat)
    (cLen : Nat) (pCombos : List (List Nat))
    (hc : combos.Nodup) (hp : pCombos.Nodup)
    (hlen : cnts.length = combos.length)
    (hcover : ∀ c ∈ combos, ∃ i pc, c = i :: pc ∧ i < cLen ∧ pc ∈ pCombos) :
    matrixSum (countsMatrix combos cnts cLen pCombos) = cnts.sum := by
  rw [matrixSum_countsMatrix]
  apply sum_map_cellVal (crossKeys cLen pCombos) (nodup_crossKeys cLen pCombos hp)
    combos cnts hc hlen
  intro c hcc
  rcases hcover c hcc with ⟨i, pc, rfl, hi, hpc⟩
  exact mem_crossKeys hi hpc

/-! ### Dict building, key sorting and node value counts -/

theorem foldl_dictInsert_fresh {β : Type} :
    ∀ (ps acc : List (String × β)), (ps.map Prod.fst).Nodup →
    (∀ p ∈ ps, ∀ q ∈ acc, q.1 ≠ p.1) →
    ps.foldl (fun d p => dictInsert d p.1 p.2) acc = acc ++ ps := by
  intro ps
  induction ps with
  | nil => intro acc _ _; simp
  | cons p ps ih =>
    intro acc hnd hfresh
    have hins : dictInsert acc p.1 p.2 = acc ++ [(p.1, p.2)] := by
      unfold dictInsert
      have : acc.any (fun q => q.1 == p.1) = false := by
        rw [List.any_eq_false]
        intro q hq
        simpa using hfresh p (by simp) q hq
      simp [this]
    rw [List.foldl_cons, hins, ih (acc ++ [(p.1, p.2)])
      (by simpa using (List.nodup_cons.mp (by simpa using hnd)).2) ?fresh]
    · simp
    case fresh =>
      intro q hq r hr
      rcases List.mem_append.mp hr with hr | hr
      · exact hfresh q (by simp [hq]) r hr
      · have hrp : r = (p.1, p.2) := by simpa using hr
        subst hrp
        have hkey : p.1 ∉ ps.map Prod.fst := (List.nodup_cons.mp (by simpa using hnd)).1
        intro he
        exact hkey (he ▸ List.mem_map.mpr ⟨q, hq, rfl⟩)

theorem buildDict_eq_self {β : Type} (ps : List (String × β))
    (hnd : (ps.map Prod.fst).Nodup) : buildDict ps = ps := by
  unfold buildDict
  rw [foldl_dictInsert_fresh ps [] hnd (by simp)]
  simp

theorem sortByKey_perm {β : Type} (d : List (String × β)) :
    (sortByKey d).Perm d :=
  List.perm_insertionSort _ d

/-- Keys produced when the bincount of a column is labelled with its
categories. -/
theorem nvc_pairs_fst (cats : List String) (col : List Nat) :
    ((bincount col).enum.map (fun p => (cats.getD p.1 "", p.2))).map Prod.fst =
      (List.range (bincount col).length).map (fun v => cats.getD v "") := by
  rw [List.map_map]
  have : (Prod.fst ∘ fun p : Nat × Nat => (cats.getD p.1 "", p.2)) =
      (fun v => cats.getD v "") ∘ Prod.fst := rfl
  rw [this, ← List.map_map, List.enum_map_fst]

theorem nvc_pairs_snd (cats : List String) (col : List Nat) :
    ((bincount col).enum.map (fun p => (cats.getD p.1 "", p.2))).map Prod.snd =
      bincount col := by
  rw [List.map_map]
  have : (Prod.snd ∘ fun p : Nat × Nat => (cats.getD p.1 "", p.2)) = Prod.snd := rfl
  rw [this, List.enum_map_snd]

theorem nvc_keys_nodup (cats : List String) (col : List Nat)
    (hcats : cats.Nodup) (hle : (bincount col).length ≤ cats.length) :
    (((bincount col).enum.map (fun p => (cats.getD p.1 "", p.2))).map Prod.fst).Nodup := by
  rw [nvc_pairs_fst]
  apply (List.nodup_range _).map_on
  intro x hx y hy hxy
  have hx' : x < cats.length := lt_of_lt_of_le (List.mem_range.mp hx) hle
  have hy' : y < cats.length := lt_of_lt_of_le (List.mem_range.mp hy) hle
  rw [List.getD_eq_getElem _ _ hx', List.getD_eq_getElem _ _ hy'] at hxy
  have hinj := List.nodup_iff_injective_get.mp hcats
  have hgeq : cats.get ⟨x, hx'⟩ = cats.get ⟨y, hy'⟩ := by
    simpa [List.get_eq_getElem] using hxy
  have := hinj hgeq
  exact congrArg Fin.val this

theorem nodeValueCounts_perm (cats : List String) (col : List Nat)
    (hcats : cats.Nodup) (hle : (bincount col).length ≤ cats.length) :
    (nodeValueCounts cats col).Perm
      ((bincount col).enum.map (fun p => (cats.getD p.1 "", p.2))) := by
  unfold nodeValueCounts
  rw [buildDict_eq_self _ (nvc_keys_nodup cats col hcats hle)]
  exact sortByKey_perm _

theorem nodeValueCounts_length (cats : List String) (col : List Nat)
    (hcats : cats.Nodup) (hle : (bincount col).length ≤ cats.length) :
    (nodeValueCounts cats col).length = (bincount col).length := by
  rw [(nodeValueCounts_perm cats col hcats hle).length_eq]
  rw [List.length_map, List.enum_length]

theorem nodeValueCounts_snd_sum (cats : List String) (col : List Nat)
    (hcats : cats.Nodup) (hle : (bincount col).length ≤ cats.length) :
    ((nodeValueCounts cats col).map Prod.snd).sum = (bincount col).sum := by
  have hperm := (nodeValueCounts_perm cats col hcats hle).map Prod.snd
  rw [hperm.sum_eq, nvc_pairs_snd]

/-! ### Lookup and index lemmas -/

theorem lookup_map_eq {β : Type} (f : Nat → String) (g : Nat → β) :
    ∀ (l : List Nat), (l.map f).Nodup → ∀ j ∈ l,
    List.lookup (f j) (l.map (fun i => (f i, g i))) = some (g j) := by
  intro l
  induction l with
  | nil => intro _ j hj; simp at hj
  | cons i t ih =>
    intro hnd j hj
    rw [List.map_cons, List.lookup_cons]
    rcases List.mem_cons.mp hj with h | h
    · subst h
      simp
    · have hne : (f j == f i) = false := by
        rw [beq_eq_false_iff_ne]
        intro he
        have : f i ∈ t.map f := he ▸ List.mem_map.mpr ⟨j, h, rfl⟩
        exact (List.nodup_cons.mp (by simpa using hnd)).1 this
      rw [hne]
      exact ih (List.nodup_cons.mp (by simpa using hnd)).2 j h

theorem indexOf_getElem_self (l : List String) (hnd : l.Nodup) (j : Nat)
    (hj : j < l.length) : List.indexOf l[j] l = j := by
  have hmem : l[j] ∈ l := List.getElem_mem hj
  have hlt : List.indexOf l[j] l < l.length := List.indexOf_lt_length.mpr hmem
  have hget : l.get ⟨List.indexOf l[j] l, hlt⟩ = l[j] := List.indexOf_get hlt
  have hinj := List.nodup_iff_injective_get.mp hnd
  have hgeq : l.get ⟨List.indexOf l[j] l, hlt⟩ = l.get ⟨j, hj⟩ := by
    simp only [List.get_eq_getElem]
    exact hget
  have := hinj hgeq
  exact congrArg Fin.val this

theorem map_getD_range {α : Type} (l : List α) (d : α) :
    (List.range l.length).map (fun i => l.getD i d) = l := by
  apply List.ext_getElem (by simp)
  intro n h1 h2
  simp only [List.getElem_map, List.getElem_range]
  exact List.getD_eq_getElem l d h2

theorem applyPerm_perm (order : List Nat) (rows : List (List Nat))
    (h : order.Perm (List.range rows.length)) :
    (applyPerm order rows).Perm rows := by
  unfold applyPerm
  have hmap := h.map (fun i => rows.getD i [])
  rw [map_getD_range] at hmap
  exact hmap

theorem npPermutation_perm (seed N : Nat) :
    (npPermutation seed N).Perm (List.range N) :=
  List.rotate_perm _ _

theorem natMax_mem {l : List Nat} (h : l ≠ []) : natMax l ∈ l := by
  induction l with
  | nil => exact absurd rfl h
  | cons a t ih =>
    match t, ih with
    | [], _ => simp [natMax]
    | b :: t', ih =>
      have hm : natMax (a :: b :: t') = max a (natMax (b :: t')) := rfl
      rw [hm]
      rcases Nat.le_total (natMax (b :: t')) a with hle | hle
      · rw [Nat.max_eq_left hle]; simp
      · rw [Nat.max_eq_right hle]
        exact List.mem_cons_of_mem a (ih (by simp))

/-! ### Well-formed categorical dataset states -/

/-- External name of column `j`. -/
def extOf (s : NumPyState) (j : Nat) : String :=
  lookupD s.orig_to_ext (s.nodes.getD j "") ""

/-- Well-formedness of a categorical `NumPy` state: the shape conditions
guaranteed by the constructor (rectangular `uint8` data, one category tuple
of distinct labels per column, codes within the category range) together
with the coherence that `set_N` establishes between `N`, `sample` and
`node_values`, and the bijectivity of the name maps.  Every conjunct is
decidable, so a concrete state can be checked by `decide`. -/
abbrev WFCat (s : NumPyState) : Prop :=
  s.dstype = DatasetType.categorical
  ∧ s.categories.length = s.nodes.length
  ∧ (∀ r ∈ s.sample, r.length = s.nodes.length)
  ∧ s.N = s.sample.length
  ∧ 1 ≤ s.N
  ∧ s.nodes.Nodup
  ∧ (∀ c ∈ s.categories, c.Nodup)
  ∧ (∀ j, j < s.nodes.length → ∀ v ∈ columnOf s.sample j,
      v < (s.categories.getD j []).length)
  ∧ ((List.range s.nodes.length).map (extOf s)).Nodup
  ∧ (∀ j, j < s.nodes.length → lookupD s.ext_to_orig (extOf s j) "" = s.nodes.getD j "")
  ∧ s.node_values = (List.range s.nodes.length).map
      (fun j => (extOf s j, nodeValueCounts (s.categories.getD j []) (columnOf s.sample j)))

theorem WFCat.keys_eq {s : NumPyState} (h : WFCat s) :
    s.node_values.map Prod.fst = (List.range s.nodes.length).map (extOf s) := by
  obtain ⟨_, _, _, _, _, _, _, _, _, _, hnv⟩ := h
  rw [hnv, List.map_map]
  rfl

theorem WFCat.mem_keys {s : NumPyState} (h : WFCat s) {n : String}
    (hn : n ∈ s.node_values.map Prod.fst) :
    ∃ j, j < s.nodes.length ∧ n = extOf s j := by
  rw [h.keys_eq] at hn
  rcases List.mem_map.mp hn with ⟨j, hj, hjn⟩
  exact ⟨j, List.mem_range.mp hj, hjn.symm⟩

theorem WFCat.lookup_node_values {s : NumPyState} (h : WFCat s) {j : Nat}
    (hj : j < s.nodes.length) :
    List.lookup (extOf s j) s.node_values =
      some (nodeValueCounts (s.categories.getD j []) (columnOf s.sample j)) := by
  obtain ⟨_, _, _, _, _, _, _, _, hext, _, hnv⟩ := h
  rw [hnv]
  exact lookup_map_eq (extOf s) _ (List.range s.nodes.length) hext j
    (List.mem_range.mpr hj)

theorem WFCat.jIndex {s : NumPyState} (h : WFCat s) {j : Nat}
    (hj : j < s.nodes.length) :
    s.nodes.indexOf (lookupD s.ext_to_orig (extOf s j) "") = j := by
  obtain ⟨_, _, _, _, _, hnodes, _, _, _, he2o, _⟩ := h
  rw [he2o j hj]
  rw [List.getD_eq_getElem _ _ hj]
  exact indexOf_getElem_self s.nodes hnodes j hj

theorem WFCat.sample_ne_nil {s : NumPyState} (h : WFCat s) : s.sample ≠ [] := by
  obtain ⟨_, _, _, hN, hN1, _⟩ := h
  intro he
  rw [he] at hN
  simp at hN
  omega

theorem WFCat.column_ne_nil {s : NumPyState} (h : WFCat s) (j : Nat) :
    columnOf s.sample j ≠ [] := by
  have := h.sample_ne_nil
  unfold columnOf
  simpa using this

theorem WFCat.column_length {s : NumPyState} (h : WFCat s) (j : Nat) :
    (columnOf s.sample j).length = s.N := by
  obtain ⟨_, _, _, hN, _⟩ := h
  unfold columnOf
  simp [hN]

/-- The bincount of a sample column never outruns the category tuple of
its column. -/
theorem WFCat.bincount_le {s : NumPyState} (h : WFCat s) {j : Nat}
    (hj : j < s.nodes.length) :
    (bincount (columnOf s.sample j)).length ≤ (s.categories.getD j []).length := by
  have hne := h.column_ne_nil j
  have hmem := natMax_mem hne
  obtain ⟨_, _, _, _, _, _, _, hcodes, _⟩ := h
  rw [bincount_length hne]
  exact hcodes j hj _ hmem

theorem WFCat.cats_nodup {s : NumPyState} (h : WFCat s) (j : Nat) :
    ((s.categories.getD j []).Nodup) := by
  obtain ⟨_, hlen, _, _, _, _, hcats, _⟩ := h
  by_cases hj : j < s.categories.length
  · exact hcats _ (List.getD_eq_getElem _ _ hj ▸ List.getElem_mem hj)
  · rw [List.getD_eq_default _ _ (by omega)]
    exact List.nodup_nil

/-- Length of the node value dict of column `j` in a well-formed state:
the bincount length of the column. -/
theorem WFCat.nv_length {s : NumPyState} (h : WFCat s) {j : Nat}
    (hj : j < s.nodes.length) :
    (lookupD s.node_values (extOf s j) []).length =
      (bincount (columnOf s.sample j)).length := by
  unfold lookupD
  rw [h.lookup_node_values hj]
  simp only [Option.getD_some]
  exact nodeValueCounts_length _ _ (h.cats_nodup j) (h.bincount_le hj)

/-- Every code in column `j` of the sample is an in-range row index of the
crosstab matrix for node `extOf s j`. -/
theorem WFCat.code_lt_nv_length {s : NumPyState} (h : WFCat s) {j : Nat}
    (hj : j < s.nodes.length) {v : Nat} (hv : v ∈ columnOf s.sample j) :
    v < (lookupD s.node_values (extOf s j) []).length := by
  rw [h.nv_length hj]
  exact mem_lt_bincount_length hv

theorem WFCat.nv_snd_sum {s : NumPyState} (h : WFCat s) {j : Nat}
    (hj : j < s.nodes.length) :
    ((lookupD s.node_values (extOf s j) []).map Prod.snd).sum = s.N := by
  unfold lookupD
  rw [h.lookup_node_values hj]
  simp only [Option.getD_some]
  rw [nodeValueCounts_snd_sum _ _ (h.cats_nodup j) (h.bincount_le hj)]
  rw [bincount_sum (h.column_ne_nil j)]
  exact h.column_length j

/-! ### Claim C1: marginal counts sum to the working sample size -/

theorem mem_reqNodes_self (node : String) (parents : List (String × List String)) :
    node ∈ reqNodes node parents := by
  unfold reqNodes
  cases List.lookup node parents <;> simp

theorem reqNodes_head (node : String) (parents : List (String × List String)) :
    ∃ rest, reqNodes node parents = node :: rest := by
  unfold reqNodes
  cases List.lookup node parents <;> exact ⟨_, rfl⟩

theorem matrixSum_single (nv : List (String × Nat)) :
    matrixSum (nv.map (fun p => [p.2])) = (nv.map Prod.snd).sum := by
  unfold matrixSum
  rw [List.map_map]
  apply congrArg List.sum
  apply List.map_congr_left
  intro p _
  simp

/-- Claim C1: for every well-formed categorical dataset state and every
valid marginals query (all requested nodes present, none repeated), the
entries of the returned counts matrix sum exactly to the current working
sample size `N`. -/
theorem C1_marginals_counts_sum_N (s : NumPyState) (node : String)
    (parents : List (String × List String)) (values_reqd : Bool)
    (hwf : WFCat s)
    (hmem : ∀ n ∈ reqNodes node parents, n ∈ s.node_values.map Prod.fst)
    (hnd : (reqNodes node parents).Nodup) :
    ∃ r, marginals s node parents values_reqd = Except.ok r ∧
      matrixSum r.counts = s.N := by
  obtain ⟨j, hj, hnode⟩ := hwf.mem_keys (hmem node (mem_reqNodes_self node parents))
  by_cases hlen : (reqNodes node parents).length = 1
  · -- single-variable branch: counts are the node value counts of the sample
    simp only [marginals]
    rw [if_pos ⟨hmem, hnd⟩, if_pos hlen]
    refine ⟨_, rfl, ?_⟩
    dsimp only
    rw [matrixSum_single]
    rw [hnode]
    exact hwf.nv_snd_sum hj
  · -- multi-variable branch: the crosstab matrix
    simp only [marginals]
    rw [if_pos ⟨hmem, hnd⟩, if_neg hlen]
    refine ⟨_, rfl, ?_⟩
    dsimp only
    rw [matrixSum_eq_sum_cnts _ _ _ _ (nodup_npUnique _) (nodup_npUnique _)
      (List.length_map _ _) ?cover]
    · rw [sum_count_npUnique]
      unfold projectedRows
      rw [List.length_map]
      obtain ⟨_, _, _, hN, _⟩ := hwf
      omega
    case cover =>
      intro c hc
      have hcmem : c ∈ projectedRows s.sample (jReqd s (reqNodes node parents)) :=
        mem_npUnique.mp hc
      rcases List.mem_map.mp hcmem with ⟨row, hrow, hrowc⟩
      obtain ⟨rest, hreq⟩ := reqNodes_head node parents
      rw [hreq] at hrowc
      unfold jReqd at hrowc
      rw [List.map_cons, List.map_cons] at hrowc
      refine ⟨row.getD (s.nodes.indexOf (lookupD s.ext_to_orig node "")) 0,
        (rest.map (fun n => s.nodes.indexOf (lookupD s.ext_to_orig n ""))).map
          (fun jx => row.getD jx 0), hrowc.symm, ?_, ?_⟩
      · -- the child code is an in-range row index of the matrix
        have hidx : s.nodes.indexOf (lookupD s.ext_to_orig node "") = j := by
          rw [hnode]
          exact hwf.jIndex hj
        rw [hidx]
        have hvmem : row.getD j 0 ∈ columnOf s.sample j :=
          List.mem_map.mpr ⟨row, hrow, rfl⟩
        have := hwf.code_lt_nv_length hj hvmem
        rwa [← hnode] at this
      · -- the parent combination is an observed column
        apply mem_npUnique.mpr
        apply List.mem_map.mpr
        refine ⟨c, hc, ?_⟩
        rw [← hrowc]
        rfl

/-! ### Concrete states used by witnesses and counterexamples -/

/-- The dataframe with columns `A = x, y, x` and `B = q, p, p`. -/
def dfEx : List (String × List String) := [("A", ["x", "y", "x"]), ("B", ["q", "p", "p"])]

/-- The dataset state produced by `fromDfCat dfEx`, written out. -/
def sEx : NumPyState :=
  { data := [[0, 0], [1, 1], [0, 1]]
    sample := [[0, 0], [1, 1], [0, 1]]
    nodes := ["A", "B"]
    categories := [["x", "y"], ["q", "p"]]
    order := [0, 1]
    ext_to_orig := [("A", "A"), ("B", "B")]
    orig_to_ext := [("A", "A"), ("B", "B")]
    N := 3
    node_types := [("A", "category"), ("B", "category")]
    dstype := DatasetType.categorical
    node_values := [("A", [("x", 2), ("y", 1)]), ("B", [("p", 2), ("q", 1)])] }

/-- Witness for claim C1 at the concrete dataset `sEx` and the query
`marginals(A, A: [B])`. -/
theorem C1_marginals_counts_sum_N_witness :
    ∃ r, marginals sEx "A" [("A", ["B"])] false = Except.ok r ∧
      matrixSum r.counts = sEx.N :=
  C1_marginals_counts_sum_N sEx "A" [("A", ["B"])] false (by decide) (by decide)
    (by decide)

/-! ### Claim C2: matrix columns are the observed parent combinations -/

/-- Parent-value combination of every sample row for a marginals query:
the requested columns of the row except the leading child column. -/
def observedParentCombos (s : NumPyState) (node : String)
    (parents : List (String × List String)) : List (List Nat) :=
  (projectedRows s.sample (jReqd s (reqNodes node parents))).map List.tail

/-- The parent combinations that index the columns of the crosstab matrix,
exactly as `marginals` computes them (`numpy.py` line 338). -/
def columnCombos (s : NumPyState) (node : String)
    (parents : List (String × List String)) : List (List Nat) :=
  npUnique ((npUnique (projectedRows s.sample (jReqd s (reqNodes node parents)))).map
    List.tail)

theorem foldl_mul_eq_prod {α : Type} (f : α → Nat) :
    ∀ (ps : List α) (init : Nat),
    ps.foldl (fun m p => m * f p) init = init * (ps.map f).prod := by
  intro ps
  induction ps with
  | nil => intro init; simp
  | cons p ps ih =>
    intro init
    rw [List.foldl_cons, ih, List.map_cons, List.prod_cons]
    ring

theorem mem_columnCombos_iff_observed (s : NumPyState) (node : String)
    (parents : List (String × List String)) (pc : List Nat) :
    pc ∈ columnCombos s node parents ↔ pc ∈ observedParentCombos s node parents := by
  unfold columnCombos observedParentCombos
  rw [mem_npUnique]
  constructor
  · intro h
    rcases List.mem_map.mp h with ⟨c, hc, hct⟩
    exact List.mem_map.mpr ⟨c, mem_npUnique.mp hc, hct⟩
  · intro h
    rcases List.mem_map.mp h with ⟨c, hc, hct⟩
    exact List.mem_map.mpr ⟨c, mem_npUnique.mpr hc, hct⟩

/-- Claim C2: on a valid marginals query with at least one parent, the
columns of the returned counts matrix correspond exactly to the parent
value combinations observed in the current sample (one column per observed
combination, none for unobserved ones), and the returned `maxcol` is the
product over the parents of the number of values recorded for the parent
in `node_values` (its per-sample domain size). -/
theorem C2_marginals_columns (s : NumPyState) (node : String)
    (parents : List (String × List String)) (ps : List String)
    (_hwf : WFCat s)
    (hps : List.lookup node parents = some ps) (hpsne : ps ≠ [])
    (hmem : ∀ n ∈ reqNodes node parents, n ∈ s.node_values.map Prod.fst)
    (hnd : (reqNodes node parents).Nodup) :
    ∃ r, marginals s node parents true = Except.ok r ∧
      (∀ pc, pc ∈ columnCombos s node parents ↔
        pc ∈ observedParentCombos s node parents) ∧
      (columnCombos s node parents).Nodup ∧
      (∀ row ∈ r.counts, row.length = (columnCombos s node parents).length) ∧
      (∃ cv, r.colval = some cv ∧ cv.length = (columnCombos s node parents).length) ∧
      r.maxcol = (ps.map (fun p => (lookupD s.node_values p []).length)).prod := by
  have hreq : reqNodes node parents = node :: ps := by
    unfold reqNodes
    rw [hps]
  have hlen : ¬ (reqNodes node parents).length = 1 := by
    rw [hreq]
    simp only [List.length_cons]
    intro h
    exact hpsne (List.length_eq_zero.mp (by omega))
  simp only [marginals]
  rw [if_pos ⟨hmem, hnd⟩, if_neg hlen]
  refine ⟨_, rfl, ?_, ?_, ?_, ?_, ?_⟩
  · exact mem_columnCombos_iff_observed s node parents
  · exact nodup_npUnique _
  · intro row hrow
    dsimp only at hrow
    unfold countsMatrix at hrow
    rcases List.mem_map.mp hrow with ⟨i, _, hi⟩
    rw [← hi, List.length_map]
    rfl
  · dsimp only
    rw [if_pos trivial]
    refine ⟨_, rfl, ?_⟩
    rw [List.length_map]
    rfl
  · dsimp only
    rw [hps]
    simp only [Option.getD_some]
    rw [foldl_mul_eq_prod]
    exact (Nat.one_mul _)

/-- Witness for claim C2 at the concrete dataset `sEx` and the query
`marginals(B, B: [A])`. -/
theorem C2_marginals_columns_witness :
    ∃ r, marginals sEx "B" [("B", ["A"])] true = Except.ok r ∧
      (∀ pc, pc ∈ columnCombos sEx "B" [("B", ["A"])] ↔
        pc ∈ observedParentCombos sEx "B" [("B", ["A"])]) ∧
      (columnCombos sEx "B" [("B", ["A"])]).Nodup ∧
      (∀ row ∈ r.counts, row.length = (columnCombos sEx "B" [("B", ["A"])]).length) ∧
      (∃ cv, r.colval = some cv ∧
        cv.length = (columnCombos sEx "B" [("B", ["A"])]).length) ∧
      r.maxcol = (["A"].map (fun p => (lookupD sEx.node_values p []).length)).prod :=
  C2_marginals_columns sEx "B" [("B", ["A"])] ["A"] (by decide) (by decide)
    (by decide) (by decide) (by decide)

/-! ### Characterisation of successful set_N and construction -/

/-- A successful `set_N` call: the argument bounds it enforces and the
exact state it produces, field by field. -/
theorem set_N_ok_spec (s s' : NumPyState) (N : Nat) (seed : Option Nat)
    (h : set_N s N seed = Except.ok s') :
    1 ≤ N ∧ N ≤ s.data.length ∧ seed.getD 0 ≤ 100 ∧
    s'.data = s.data ∧ s'.nodes = s.nodes ∧ s'.categories = s.categories ∧
    s'.order = s.order ∧ s'.ext_to_orig = s.ext_to_orig ∧
    s'.orig_to_ext = s.orig_to_ext ∧ s'.node_types = s.node_types ∧
    s'.dstype = s.dstype ∧ s'.N = N ∧
    s'.node_values = (if s.dstype = DatasetType.categorical then
        (List.range ((s.data.take N).headD []).length).map (fun j =>
          (s.nodes.getD j "",
           nodeValueCounts (s.categories.getD j []) (columnOf (s.data.take N) j)))
      else []) ∧
    (seed = none → s'.sample = s.data.take N) ∧
    (∀ sd, seed = some sd →
      s'.sample = if sd ≠ 0 then applyPerm (npPermutation sd N) (s.data.take N)
                  else s.data.take N) := by
  by_cases hcond : N < 1 ∨ s.data.length < N ∨ 100 < seed.getD 0
  · unfold set_N at h
    rw [if_pos hcond] at h
    cases h
  · unfold set_N at h
    rw [if_neg hcond] at h
    push_neg at hcond
    obtain ⟨h1, h2, h3⟩ := hcond
    have hs : s' = _ := (Except.ok.inj h).symm
    subst hs
    refine ⟨by omega, by omega, by omega, rfl, rfl, rfl, rfl, rfl, rfl, rfl, rfl,
      rfl, rfl, ?_, ?_⟩
    · rintro rfl
      rfl
    · rintro sd rfl
      rfl

/-- A successful construction: at least two data rows, and the new state
carries the data with `N` set to the full row count. -/
theorem mkNumPy_ok_N (data : List (List Nat)) (dstype : DatasetType)
    (col_values : List (String × Option (List String))) (s : NumPyState)
    (h : mkNumPy data dstype col_values = Except.ok s) :
    2 ≤ data.length ∧ s.N = data.length ∧ s.data = data := by
  by_cases h1 : (dstype = DatasetType.categorical ∧ ¬ ∀ p ∈ col_values, (p.2).isSome = true)
      ∨ (dstype = DatasetType.continuous ∧ ¬ ∀ p ∈ col_values, p.2 = none)
  · unfold mkNumPy at h
    rw [if_pos h1] at h
    cases h
  · by_cases h2 : data.length < 2 ∨ (data.headD []).length < 2
        ∨ (data.headD []).length ≠ col_values.length
    · unfold mkNumPy at h
      rw [if_neg h1, if_pos h2] at h
      cases h
    · unfold mkNumPy at h
      rw [if_neg h1, if_neg h2] at h
      simp only [] at h
      push_neg at h2
      obtain ⟨hrows, _⟩ := h2
      obtain ⟨_, _, _, hdata, _, _, _, _, _, _, _, hN, _, _, _⟩ :=
        set_N_ok_spec _ s data.length none h
      exact ⟨by omega, hN, by rw [hdata]⟩

/-! ### Claim C3 (corrected): the working sample can shrink to one row -/

/-- Counterexample to claim C3 as stated: on the dataset `sEx` (three data
rows, so in particular a legal construction), the call `set_N 1` succeeds —
the source check at `numpy.py` line 212 only requires `N ≥ 1` — leaving a
working sample of a single row, below the claimed lower bound of 2. -/
theorem C3_set_N_one_succeeds_cex :
    (set_N sEx 1 none).toOption.map (fun s => s.N) = some 1 ∧
      (set_N sEx 1 none).toOption.map (fun s => s.sample.length) = some 1 := ⟨rfl, rfl⟩

/-- Claim C3 amended: at construction the working sample row count is at
least 2, but a successful `set_N` only guarantees a row count of at least 1
(`set_N` accepts every `1 ≤ N ≤` row count of the data). -/
theorem C3_amended_construction_N (data : List (List Nat))
    (dstype : DatasetType) (col_values : List (String × Option (List String)))
    (s s' : NumPyState) (N : Nat) (seed : Option Nat)
    (hmk : mkNumPy data dstype col_values = Except.ok s)
    (hset : set_N s N seed = Except.ok s') :
    2 ≤ s.N ∧ 1 ≤ s'.N ∧ s'.N = N := by
  obtain ⟨hrows, hN, _⟩ := mkNumPy_ok_N data dstype col_values s hmk
  obtain ⟨hN1, _, _, _, _, _, _, _, _, _, _, hN', _, _, _⟩ :=
    set_N_ok_spec s s' N seed hset
  exact ⟨by omega, by omega, hN'⟩

/-- Witness for the amended claim C3 at the concrete dataset `sEx`. -/
theorem C3_amended_construction_N_witness :
    ∃ s s', mkNumPy [[0, 0], [1, 1], [0, 1]] DatasetType.categorical
        [("A", some ["x", "y"]), ("B", some ["q", "p"])] = Except.ok s ∧
      set_N s 1 none = Except.ok s' ∧ (2 ≤ s.N ∧ 1 ≤ s'.N ∧ s'.N = 1) := by
  refine ⟨sEx, _, rfl, rfl, ?_⟩
  exact C3_amended_construction_N [[0, 0], [1, 1], [0, 1]] DatasetType.categorical
    [("A", some ["x", "y"]), ("B", some ["q", "p"])] sEx _ 1 none rfl rfl

/-! ### Claim C4 (corrected): one ValueError covers both invalid queries -/

/-- Counterexample to claim C4 as stated: `marginals` raises one and the
same error value — `ValueError` with message `NumPy.marginals() bad arg
value` — both when a requested identifier is absent (query for the unknown
node `Z`) and when a variable is requested twice (query for `A` with parent
`A`); the source does not distinguish an InvalidVariableError from a
DuplicateVariableError. -/
theorem C4_same_error_cex :
    marginals sEx "Z" [] false = marginals sEx "A" [("A", ["A"])] false ∧
    marginals sEx "Z" [] false =
      Except.error (PyError.valueError "NumPy.marginals() bad arg value") :=
  ⟨rfl, rfl⟩

/-- Claim C4 amended: `marginals` fails with the single
`ValueError NumPy.marginals() bad arg value` whenever a requested
identifier is absent from the dataset or a variable is requested twice,
and a call on a well-formed state in which all requested variables are
present and pairwise distinct raises no error. -/
theorem C4_amended_marginals_validation (s : NumPyState) (node : String)
    (parents : List (String × List String)) (values_reqd : Bool)
    (_hwf : WFCat s) :
    ((∃ n ∈ reqNodes node parents, n ∉ s.node_values.map Prod.fst) ∨
        ¬ (reqNodes node parents).Nodup →
      marginals s node parents values_reqd =
        Except.error (PyError.valueError "NumPy.marginals() bad arg value")) ∧
    ((∀ n ∈ reqNodes node parents, n ∈ s.node_values.map Prod.fst) ∧
        (reqNodes node parents).Nodup →
      ∃ r, marginals s node parents values_reqd = Except.ok r) := by
  constructor
  · intro hbad
    have hneg : ¬ ((∀ n ∈ reqNodes node parents, n ∈ s.node_values.map Prod.fst) ∧
        (reqNodes node parents).Nodup) := by
      rintro ⟨hmem, hnd⟩
      rcases hbad with ⟨n, hn, hnot⟩ | hdup
      · exact hnot (hmem n hn)
      · exact hdup hnd
    simp only [marginals]
    rw [if_neg hneg]
  · rintro ⟨hmem, hnd⟩
    simp only [marginals]
    rw [if_pos ⟨hmem, hnd⟩]
    by_cases hlen : (reqNodes node parents).length = 1
    · rw [if_pos hlen]
      exact ⟨_, rfl⟩
    · rw [if_neg hlen]
      exact ⟨_, rfl⟩

/-- Witness for the amended claim C4 at the concrete dataset `sEx` and the
query `marginals(A, A: [B])`. -/
theorem C4_amended_marginals_validation_witness :
    ((∃ n ∈ reqNodes "A" [("A", ["B"])], n ∉ sEx.node_values.map Prod.fst) ∨
        ¬ (reqNodes "A" [("A", ["B"])]).Nodup →
      marginals sEx "A" [("A", ["B"])] false =
        Except.error (PyError.valueError "NumPy.marginals() bad arg value")) ∧
    ((∀ n ∈ reqNodes "A" [("A", ["B"])], n ∈ sEx.node_values.map Prod.fst) ∧
        (reqNodes "A" [("A", ["B"])]).Nodup →
      ∃ r, marginals sEx "A" [("A", ["B"])] false = Except.ok r) :=
  C4_amended_marginals_validation sEx "A" [("A", ["B"])] false (by decide)

/-! ### Claim C5 (corrected): set_N and randomise_names mutate in place -/

/-- Counterexample to claim C5 as stated: `set_N` is an in-place update of
the instance it is invoked on, not the creation of a new view.  After a
successful `set_N 1` on `sEx` the instance state carries `N = 1` and a
one-row sample, while the prior state had `N = 3`; the source method
returns `None` and mutates `self` (`numpy.py` lines 216-239). -/
theorem C5_set_N_mutates_cex :
    (set_N sEx 1 none).toOption.map (fun s => (s.N, s.sample)) =
      some (1, [[0, 0]]) ∧ sEx.N = 3 ∧ sEx.sample.length = 3 :=
  ⟨rfl, rfl, rfl⟩

/-- Claim C5 amended: `set_N` and `randomise_names` update the instance in
place — `set_N` rewrites `N`, `sample` and `node_values`, and
`randomise_names` rewrites the name maps and the dict keys — while the
underlying data array and the immutable description fields (`nodes`,
`categories`, `dstype`) are never touched; `randomise_names` also leaves
the sample and `N` unchanged. -/
theorem C5_amended_inplace_update (s s' s'' : NumPyState) (N : Nat)
    (seed seed' : Option Nat)
    (hset : set_N s N seed = Except.ok s')
    (hran : randomise_names s seed' = Except.ok s'') :
    (s'.data = s.data ∧ s'.nodes = s.nodes ∧ s'.categories = s.categories ∧
      s'.dstype = s.dstype ∧ s'.N = N) ∧
    (s''.data = s.data ∧ s''.sample = s.sample ∧ s''.N = s.N ∧
      s''.nodes = s.nodes ∧ s''.categories = s.categories ∧
      s''.dstype = s.dstype ∧
      s''.orig_to_ext = generateRandomNames s.nodes seed') := by
  obtain ⟨_, _, _, hdata, hnodes, hcats, _, _, _, _, hdstype, hN, _, _, _⟩ :=
    set_N_ok_spec s s' N seed hset
  have hs'' : s'' = _ := (Except.ok.inj hran).symm
  subst hs''
  exact ⟨⟨hdata, hnodes, hcats, hdstype, hN⟩, rfl, rfl, rfl, rfl, rfl, rfl, rfl⟩

/-- Witness for the amended claim C5 at the concrete dataset `sEx`. -/
theorem C5_amended_inplace_update_witness :
    ∃ s' s'', set_N sEx 1 none = Except.ok s' ∧
      randomise_names sEx (some 7) = Except.ok s'' ∧
      ((s'.data = sEx.data ∧ s'.nodes = sEx.nodes ∧
        s'.categories = sEx.categories ∧ s'.dstype = sEx.dstype ∧ s'.N = 1) ∧
       (s''.data = sEx.data ∧ s''.sample = sEx.sample ∧ s''.N = sEx.N ∧
        s''.nodes = sEx.nodes ∧ s''.categories = sEx.categories ∧
        s''.dstype = sEx.dstype ∧
        s''.orig_to_ext = generateRandomNames sEx.nodes (some 7))) := by
  refine ⟨_, _, rfl, rfl, ?_⟩
  exact C5_amended_inplace_update sEx _ _ 1 none (some 7) rfl rfl

/-! ### Claim C6: construction failure conditions -/

/-- Claim C6: constructing a categorical dataset from a dataframe fails
whenever some column has more than `MAX_CATEGORY` distinct values, or the
dataframe has fewer than 2 rows, or fewer than 2 columns. -/
theorem C6_fromDfCat_fails (df : List (String × List String))
    (hbad : (∃ c ∈ df, MAX_CATEGORY < (firstAppearance c.2).length) ∨
      dfLen df < 2 ∨ df.length < 2) :
    ∃ e, fromDfCat df = Except.error e := by
  by_cases c1 : df.length = 1 ∨ dfLen df = 1 ∨ df.length = 0
  · unfold fromDfCat
    rw [if_pos c1]
    exact ⟨_, rfl⟩
  · push_neg at c1
    obtain ⟨hc1, hc2, hc3⟩ := c1
    by_cases c2 : df.any (fun c => decide (MAX_CATEGORY < (firstAppearance c.2).length)) = true
    · unfold fromDfCat
      rw [if_neg (by push_neg; exact ⟨hc1, hc2, hc3⟩), if_pos c2]
      exact ⟨_, rfl⟩
    · -- no overflowing column, at least 2 columns: the dataframe must have
      -- no rows, and the constructor then rejects the 0-row array
      have hnocat : ¬ ∃ c ∈ df, MAX_CATEGORY < (firstAppearance c.2).length := by
        intro ⟨c, hc, hgt⟩
        exact c2 (List.any_eq_true.mpr ⟨c, hc, by simpa using hgt⟩)
      have hcols : 2 ≤ df.length := by
        rcases Nat.lt_or_ge df.length 2 with h | h
        · interval_cases hdf : df.length <;> omega
        · exact h
      have hrows0 : dfLen df = 0 := by
        rcases hbad with h | h | h
        · exact absurd h hnocat
        · omega
        · omega
      unfold fromDfCat
      rw [if_neg (by push_neg; exact ⟨hc1, hc2, hc3⟩), if_neg c2]
      simp only []
      have hdata : (List.range (dfLen df)).map
          (fun i => (df.map (fun c => (factorize c.2).1)).map (fun col => col.getD i 0)) = [] := by
        rw [hrows0]
        rfl
      rw [hdata]
      unfold mkNumPy
      rw [if_neg ?tc, if_pos (by left; simp)]
      · exact ⟨_, rfl⟩
      case tc =>
        rintro (⟨_, hall⟩ | ⟨hcont, _⟩)
        · apply hall
          intro p hp
          rcases List.mem_map.mp hp with ⟨c, _, hc⟩
          rw [← hc]
          rfl
        · cases hcont

/-- Witness for claim C6: a one-column dataframe is rejected. -/
theorem C6_fromDfCat_fails_witness :
    ∃ e, fromDfCat [("A", ["x", "y"])] = Except.error e :=
  C6_fromDfCat_fails [("A", ["x", "y"])] (by decide)

/-! ### Claim C7: set_N never mutates the stored data -/

/-- Claim C7: a successful `set_N` leaves the underlying data array
unchanged, and the resulting sample consists of the first `N` rows of the
data — in original order when the seed is `none` or `0`, otherwise
reordered by the deterministic modelled permutation of the seed; in every
case the sample is a permutation of the first `N` data rows. -/
theorem C7_set_N_data_sample (s s' : NumPyState) (N : Nat) (seed : Option Nat)
    (hset : set_N s N seed = Except.ok s') :
    s'.data = s.data ∧
    ((seed = none ∨ seed = some 0) → s'.sample = s.data.take N) ∧
    (∀ sd, seed = some sd → sd ≠ 0 →
      s'.sample = applyPerm (npPermutation sd N) (s.data.take N)) ∧
    s'.sample.Perm (s.data.take N) := by
  obtain ⟨h1, h2, _, hdata, _, _, _, _, _, _, _, _, _, hnone, hsome⟩ :=
    set_N_ok_spec s s' N seed hset
  have htake : (s.data.take N).length = N := by
    rw [List.length_take]
    omega
  refine ⟨hdata, ?_, ?_, ?_⟩
  · rintro (rfl | rfl)
    · exact hnone rfl
    · rw [hsome 0 rfl]
      simp
  · intro sd hsd hne
    rw [hsome sd hsd]
    simp [hne]
  · cases seed with
    | none =>
      rw [hnone rfl]
    | some sd =>
      rw [hsome sd rfl]
      by_cases hz : sd = 0
      · simp [hz]
      · simp only [hz, ne_eq, not_false_eq_true, if_true]
        apply applyPerm_perm
        rw [htake]
        exact npPermutation_perm sd N

/-- Witness for claim C7 at the concrete dataset `sEx`, narrowing to the
first two rows with seed 5. -/
theorem C7_set_N_data_sample_witness :
    ∃ s', set_N sEx 2 (some 5) = Except.ok s' ∧
      (s'.data = sEx.data ∧
       ((some 5 = none ∨ some 5 = some 0) → s'.sample = sEx.data.take 2) ∧
       (∀ sd, some 5 = some sd → sd ≠ 0 →
         s'.sample = applyPerm (npPermutation sd 2) (sEx.data.take 2)) ∧
       s'.sample.Perm (sEx.data.take 2)) := by
  refine ⟨_, rfl, ?_⟩
  exact C7_set_N_data_sample sEx _ 2 (some 5) rfl

/-! ### Claim C8: factorize codes and their decoding -/

theorem mem_firstAppearanceAux (a : String) :
    ∀ (l seen : List String), a ∈ firstAppearanceAux seen l ↔ a ∈ l ∧ a ∉ seen := by
  intro l
  induction l with
  | nil => intro seen; simp [firstAppearanceAux]
  | cons x xs ih =>
    intro seen
    unfold firstAppearanceAux
    by_cases hx : x ∈ seen
    · rw [if_pos hx, ih]
      constructor
      · rintro ⟨hm, hns⟩
        exact ⟨List.mem_cons_of_mem x hm, hns⟩
      · rintro ⟨hm, hns⟩
        rcases List.mem_cons.mp hm with rfl | hm
        · exact absurd hx hns
        · exact ⟨hm, hns⟩
    · rw [if_neg hx]
      constructor
      · intro hm
        rcases List.mem_cons.mp hm with rfl | hm
        · exact ⟨by simp, hx⟩
        · rw [ih] at hm
          obtain ⟨h1, h2⟩ := hm
          exact ⟨List.mem_cons_of_mem x h1, fun hs => h2 (List.mem_cons_of_mem x hs)⟩
      · rintro ⟨hm, hns⟩
        rcases List.mem_cons.mp hm with rfl | hm
        · simp
        · by_cases hax : a = x
          · simp [hax]
          · apply List.mem_cons_of_mem
            rw [ih]
            exact ⟨hm, by
              intro hs
              rcases List.mem_cons.mp hs with h | h
              · exact hax h
              · exact hns h⟩

theorem mem_firstAppearance {a : String} {l : List String} :
    a ∈ firstAppearance l ↔ a ∈ l := by
  unfold firstAppearance
  rw [mem_firstAppearanceAux]
  simp

theorem nodup_firstAppearanceAux :
    ∀ (l seen : List String), (firstAppearanceAux seen l).Nodup := by
  intro l
  induction l with
  | nil => intro seen; simp [firstAppearanceAux]
  | cons x xs ih =>
    intro seen
    unfold firstAppearanceAux
    by_cases hx : x ∈ seen
    · rw [if_pos hx]
      exact ih seen
    · rw [if_neg hx]
      rw [List.nodup_cons]
      refine ⟨?_, ih (x :: seen)⟩
      intro hmem
      rw [mem_firstAppearanceAux] at hmem
      exact hmem.2 (by simp)

theorem nodup_firstAppearance (l : List String) : (firstAppearance l).Nodup :=
  nodup_firstAppearanceAux l []

/-- Fields of the state built by a successful categorical `from_df`: the
data is the row-major code matrix, and the categories are the distinct
column values in order of first appearance. -/
theorem fromDfCat_ok_fields (df : List (String × List String)) (s : NumPyState)
    (hok : fromDfCat df = Except.ok s) :
    s.data = (List.range (dfLen df)).map (fun i =>
      (df.map (fun c => (factorize c.2).1)).map (fun col => col.getD i 0)) ∧
    s.categories = df.map (fun c => firstAppearance c.2) ∧
    2 ≤ dfLen df ∧ 2 ≤ df.length := by
  by_cases c1 : df.length = 1 ∨ dfLen df = 1 ∨ df.length = 0
  · unfold fromDfCat at hok
    rw [if_pos c1] at hok
    cases hok
  · by_cases c2 : df.any (fun c => decide (MAX_CATEGORY < (firstAppearance c.2).length)) = true
    · unfold fromDfCat at hok
      rw [if_neg c1, if_pos c2] at hok
      cases hok
    · unfold fromDfCat at hok
      rw [if_neg c1, if_neg c2] at hok
      simp only [] at hok
      push_neg at c1
      obtain ⟨hc1, hc2, hc3⟩ := c1
      -- peel the constructor
      by_cases t1 : (DatasetType.categorical = DatasetType.categorical ∧
            ¬ ∀ p ∈ df.map (fun c => (c.1, some (firstAppearance c.2))), (p.2).isSome = true)
          ∨ (DatasetType.categorical = DatasetType.continuous ∧
            ¬ ∀ p ∈ df.map (fun c => (c.1, some (firstAppearance c.2))), p.2 = none)
      · unfold mkNumPy at hok
        rw [if_pos t1] at hok
        cases hok
      · set data := (List.range (dfLen df)).map (fun i =>
          (df.map (fun c => (factorize c.2).1)).map (fun col => col.getD i 0)) with hdata
        by_cases t2 : data.length < 2 ∨ (data.headD []).length < 2
            ∨ (data.headD []).length ≠ (df.map (fun c => (c.1, some (firstAppearance c.2)))).length
        · unfold mkNumPy at hok
          rw [if_neg t1, if_pos t2] at hok
          cases hok
        · unfold mkNumPy at hok
          rw [if_neg t1, if_neg t2] at hok
          simp only [] at hok
          obtain ⟨_, _, _, hsdata, _, hscats, _, _, _, _, _, _, _, _, _⟩ :=
            set_N_ok_spec _ s data.length none hok
          push_neg at t2
          obtain ⟨hlen2, _⟩ := t2
          have hdlen : data.length = dfLen df := by
            rw [hdata, List.length_map, List.length_range]
          refine ⟨by rw [hsdata], ?_, by omega, by omega⟩
          rw [hscats]
          simp only [if_pos rfl]
          rw [List.map_map]
          apply List.map_congr_left
          intro c _
          rfl

/-- Claim C8: after a categorical `from_df`, column `j` of the stored data
holds the integer codes of the original column values — code `i` standing
for the `i`-th distinct value in order of first appearance — every code is
below the number `k` of distinct values, every code `0..k-1` occurs, the
recorded category tuple is exactly the distinct values in first-appearance
order, and decoding a stored code through it recovers the original value of
the row. -/
theorem C8_fromDf_codes (df : List (String × List String)) (s : NumPyState)
    (j : Nat) (col : List String)
    (hj : j < df.length)
    (hcol : col = (df.getD j ("", [])).2)
    (hrect : ∀ c ∈ df, c.2.length = dfLen df)
    (hok : fromDfCat df = Except.ok s) :
    columnOf s.data j = col.map (fun v => (firstAppearance col).indexOf v) ∧
    s.categories.getD j [] = firstAppearance col ∧
    (∀ v ∈ columnOf s.data j, v < (firstAppearance col).length) ∧
    (∀ i, i < (firstAppearance col).length → i ∈ columnOf s.data j) ∧
    (∀ i, i < col.length →
      (s.categories.getD j []).getD ((columnOf s.data j).getD i 0) "" = col.getD i "") := by
  obtain ⟨hdata, hcats, hrows2, hcols2⟩ := fromDfCat_ok_fields df s hok
  have hcolj : col = (df[j]).2 := by
    rw [hcol, List.getD_eq_getElem _ _ hj]
  have hcodesj : (df.map (fun c => (factorize c.2).1)).getD j [] =
      col.map (fun v => (firstAppearance col).indexOf v) := by
    rw [List.getD_eq_getElem _ _ (by simpa using hj), List.getElem_map, hcolj]
    rfl
  have hcollen : col.length = dfLen df := by
    rw [hcolj]
    exact hrect _ (List.getElem_mem hj)
  -- the stored column j is exactly the code list of dataframe column j
  have hcolumn : columnOf s.data j = col.map (fun v => (firstAppearance col).indexOf v) := by
    rw [hdata]
    unfold columnOf
    rw [List.map_map]
    have hstep : ∀ i ∈ List.range (dfLen df),
        ((fun r => r.getD j 0) ∘ fun i =>
          (df.map (fun c => (factorize c.2).1)).map (fun c => c.getD i 0)) i =
        (col.map (fun v => (firstAppearance col).indexOf v)).getD i 0 := by
      intro i _
      simp only [Function.comp]
      have hj' : j < ((df.map (fun c => (factorize c.2).1)).map
          (fun c => c.getD i 0)).length := by
        simpa using hj
      rw [List.getD_eq_getElem _ _ hj', List.getElem_map]
      have hj'' : j < (df.map (fun c => (factorize c.2).1)).length := by
        simpa using hj
      have hcj : (df.map (fun c => (factorize c.2).1))[j] =
          col.map (fun v => (firstAppearance col).indexOf v) := by
        rw [← List.getD_eq_getElem _ ([] : List Nat) hj'', hcodesj]
      rw [hcj]
    rw [List.map_congr_left hstep]
    have : dfLen df = (col.map (fun v => (firstAppearance col).indexOf v)).length := by
      rw [List.length_map, hcollen]
    rw [this, map_getD_range]
  have hcatj : s.categories.getD j [] = firstAppearance col := by
    rw [hcats, List.getD_eq_getElem _ _ (by simpa using hj), List.getElem_map, hcolj]
  refine ⟨hcolumn, hcatj, ?_, ?_, ?_⟩
  · intro v hv
    rw [hcolumn] at hv
    rcases List.mem_map.mp hv with ⟨w, hw, hwv⟩
    rw [← hwv]
    exact List.indexOf_lt_length.mpr (mem_firstAppearance.mpr hw)
  · intro i hi
    rw [hcolumn]
    have hfai : (firstAppearance col)[i] ∈ col :=
      mem_firstAppearance.mp (List.getElem_mem hi)
    have hidx : (firstAppearance col).indexOf (firstAppearance col)[i] = i :=
      indexOf_getElem_self _ (nodup_firstAppearance col) i hi
    exact List.mem_map.mpr ⟨(firstAppearance col)[i], hfai, hidx⟩
  · intro i hi
    rw [hcolumn, hcatj]
    have hi' : i < (col.map (fun v => (firstAppearance col).indexOf v)).length := by
      simpa using hi
    have hinner : (col.map (fun v => (firstAppearance col).indexOf v)).getD i 0 =
        (firstAppearance col).indexOf col[i] := by
      rw [List.getD_eq_getElem _ _ hi', List.getElem_map]
    rw [hinner]
    have hmem : col[i] ∈ firstAppearance col :=
      mem_firstAppearance.mpr (List.getElem_mem hi)
    have hlt : (firstAppearance col).indexOf col[i] < (firstAppearance col).length :=
      List.indexOf_lt_length.mpr hmem
    rw [List.getD_eq_getElem _ _ hlt]
    have : (firstAppearance col).get ⟨(firstAppearance col).indexOf col[i], hlt⟩ =
        col[i] := List.indexOf_get hlt
    rw [List.get_eq_getElem] at this
    rw [this]
    rw [List.getD_eq_getElem _ _ hi]

/-- Witness for claim C8 on the dataframe `dfEx` at column 0. -/
theorem C8_fromDf_codes_witness :
    columnOf sEx.data 0 = ["x", "y", "x"].map
      (fun v => (firstAppearance ["x", "y", "x"]).indexOf v) ∧
    sEx.categories.getD 0 [] = firstAppearance ["x", "y", "x"] ∧
    (∀ v ∈ columnOf sEx.data 0, v < (firstAppearance ["x", "y", "x"]).length) ∧
    (∀ i, i < (firstAppearance ["x", "y", "x"]).length → i ∈ columnOf sEx.data 0) ∧
    (∀ i, i < (["x", "y", "x"] : List String).length →
      (sEx.categories.getD 0 []).getD ((columnOf sEx.data 0).getD i 0) "" =
        (["x", "y", "x"] : List String).getD i "") :=
  C8_fromDf_codes dfEx sEx 0 ["x", "y", "x"] (by decide) (by decide) (by decide) rfl

/-! ### Claim C9: marginals and marginals_safe coincide -/

/-- Claim C9: `marginals` and `marginals_safe` behave identically on every
state and argument triple — the same error or the same
`(counts, maxcol, rowval, colval)` tuple.  The two source bodies are
line-for-line identical except for the unused local `num_cats` of
`marginals`. -/
theorem C9_marginals_eq_marginals_safe (s : NumPyState) (node : String)
    (parents : List (String × List String)) (values_reqd : Bool) :
    marginals s node parents values_reqd = marginals_safe s node parents values_reqd :=
  rfl

/-! ### Claim C10: values reads the full original data -/

/-- Claim C10: on a continuous dataset, for a non-empty tuple of distinct
numeric nodes, `values` returns one column per requested node, containing
all rows of the original data — and a prior `set_N` (any narrowing `N` and
any seed) has no effect on its result. -/
theorem C10_values_full_data (s s' : NumPyState) (req : List String)
    (N : Nat) (seed : Option Nat)
    (hcont : ∀ p ∈ s.node_types, p.2 = "float32")
    (hreqsub : ∀ n ∈ req, n ∈ s.node_types.map Prod.fst)
    (hnd : req.Nodup) (hne : req ≠ [])
    (hset : set_N s N seed = Except.ok s') :
    values s' req = values s req ∧
    values s req = Except.ok (s.data.map (fun row =>
      req.map (fun n => row.getD (s.nodes.indexOf n) 0))) ∧
    (∀ m, values s req = Except.ok m →
      m.length = s.data.length ∧ ∀ row ∈ m, row.length = req.length) := by
  obtain ⟨_, _, _, hdata, hnodes, _, _, _, _, hnt, _, _, _, _, _⟩ :=
    set_N_ok_spec s s' N seed hset
  have hok : values s req = Except.ok (s.data.map (fun row =>
      req.map (fun n => row.getD (s.nodes.indexOf n) 0))) := by
    unfold values
    rw [if_neg (by simpa using hne)]
    rw [if_neg ?valid]
    case valid =>
      push_neg
      refine ⟨hnd, ?_⟩
      intro n hn
      have hkey := hreqsub n hn
      rcases List.mem_map.mp hkey with ⟨p, hp, hpn⟩
      apply List.mem_map.mpr
      refine ⟨p, List.mem_filter.mpr ⟨hp, ?_⟩, hpn⟩
      rw [hcont p hp]
      simp
  refine ⟨?_, hok, ?_⟩
  · unfold values
    rw [hdata, hnodes, hnt]
  · intro m hm
    rw [hok] at hm
    have hmm := Except.ok.inj hm
    rw [← hmm]
    constructor
    · rw [List.length_map]
    · intro row hrow
      rcases List.mem_map.mp hrow with ⟨r, _, hr⟩
      rw [← hr, List.length_map]

/-- A continuous two-column dataset used by the C10 witness: the state
built by the constructor on a three-row continuous array. -/
def sExC : NumPyState :=
  { data := [[0, 0], [1, 1], [0, 1]]
    sample := [[0, 0], [1, 1], [0, 1]]
    nodes := ["A", "B"]
    categories := []
    order := [0, 1]
    ext_to_orig := [("A", "A"), ("B", "B")]
    orig_to_ext := [("A", "A"), ("B", "B")]
    N := 3
    node_types := [("A", "float32"), ("B", "float32")]
    dstype := DatasetType.continuous
    node_values := [] }

/-- Witness for claim C10 at the concrete continuous dataset `sExC`, after
narrowing the sample to two reordered rows. -/
theorem C10_values_full_data_witness :
    ∃ s', set_N sExC 2 (some 5) = Except.ok s' ∧
      (values s' ["B", "A"] = values sExC ["B", "A"] ∧
       values sExC ["B", "A"] = Except.ok (sExC.data.map (fun row =>
         ["B", "A"].map (fun n => row.getD (sExC.nodes.indexOf n) 0))) ∧
       (∀ m, values sExC ["B", "A"] = Except.ok m →
         m.length = sExC.data.length ∧ ∀ row ∈ m, row.length = (["B", "A"] : List String).length)) := by
  refine ⟨_, rfl, ?_⟩
  exact C10_values_full_data sExC _ ["B", "A"] 2 (some 5) (by decide) (by decide)
    (by decide) (by decide) rfl

end NumPyModel
